import Mathlib

/-!
Verification of the TransparentImageViewer core against its specification.

The development shallowly embeds three parts of the source:
  * the image visual-characteristics analyzer (`analyzeImage` in the
    color-analysis module): pixel iteration, transparency threshold,
    luminance average and background suggestion policy;
  * the directory navigation hook (`useFileSystem`): the state
    `{ currentDirectoryHandle, directoryStack, files, folders, error }`
    and the transitions `loadFilesFromDirectory`, `openDirectoryWithHandle`,
    `navigateToDirectory`, `navigateUp`;
  * the app-level selection handlers (`handleNext`, `handlePrev`,
    `handleFolderClick`, `handleBreadcrumbNavigate`) and the favorites
    store (`addFavoriteDirectory`, `removeFavoriteDirectory`).

Number representation.  The source computes with JavaScript doubles; at the
magnitudes involved (channel values 0..255, dimensions up to a few
thousand) every quantity of the analyzer is modelled by its exact value, so
the embedding carries the per-pixel luminance `0.299r + 0.587g + 0.114b` as
the integer `299r + 587g + 114b` (luminance times 1000).  The analyzer's
`totalPixels = width * height` is computed by the source from the
downscaled `width`/`height` locals, which stay un-truncated floats (for a
1920 x 1080 image they are 100 and 56.25), while the raster delivered by
`getImageData` has the dimensions truncated to integers — the embedding
keeps both: `totalPixels` is the exact rational product of the downscaled
dimensions, the raster carries `rasterWidth * rasterHeight` pixels, and the
transparency threshold `transparentCount > totalPixels * 0.05` is embedded
by the equivalent integer comparison obtained by clearing the positive
denominators (`20 * transparentCount * m^2 > 10000 * width * height` with
`m` the larger original dimension in the downscaled case, and
`20 * transparentCount > width * height` otherwise); all rescalings are
exact and are related back to the rational statements of the specification
in the theorems below.  `findIndex`'s `-1` sentinel is kept as an integer.
External effects are explicit parameters: a lister environment `Env`
mapping a directory handle to either an error message (permission denied or
enumeration failure) or the raw entries, and a boolean persistence-success
flag for the IndexedDB store.
-/

namespace TIV

/-! ### Image analyzer (color-analysis module) -/

/-- The three background choices of `ImageAnalysisResult.suggestedBackground`. -/
inductive Background
  | dark
  | light
  | checkerboard
deriving DecidableEq, Repr

/-- Result record of `analyzeImage`. -/
structure ImageAnalysisResult where
  hasTransparency : Bool
  isDark : Bool
  suggestedBackground : Background
  averageLuminance : ℚ
deriving DecidableEq, Repr

/-- One RGBA pixel of the (possibly downscaled) raster, each channel in 0..255
as delivered by `getImageData`. -/
structure Pixel where
  r : ℕ
  g : ℕ
  b : ℕ
  a : ℕ
deriving DecidableEq, Repr

/-- Perceived brightness of an opaque pixel, times 1000:
the source computes `0.299 * r + 0.587 * g + 0.114 * b`, which is exactly
`(299 * r + 587 * g + 114 * b) / 1000`. -/
def luminance1000 (p : Pixel) : ℕ :=
  299 * p.r + 587 * p.g + 114 * p.b

/-- Exact rational value of the source's per-pixel luminance. -/
def luminance (p : Pixel) : ℚ :=
  (luminance1000 p : ℚ) / 1000

/-- The pixel loop of `analyzeImage`: returns
`(totalLuminance1000, opaquePixelCount, transparentPixelCount)`.  A pixel
with alpha `< 10` counts as transparent; any other pixel contributes its
(scaled) luminance to the running sum and counts as opaque.  (The source's
loop accumulates left to right; addition being associative and commutative,
the structural recursion below computes the same three values.) -/
def countPixels : List Pixel → ℕ × ℕ × ℕ
  | [] => (0, 0, 0)
  | p :: ps =>
    let rest := countPixels ps
    if p.a < 10 then
      (rest.1, rest.2.1, rest.2.2 + 1)
    else
      (rest.1 + luminance1000 p, rest.2.1 + 1, rest.2.2)

/-- The source's downscale ratio
`Math.min(MAX_SIZE / width, MAX_SIZE / height)` with `MAX_SIZE = 100`, as
an exact rational of the original image dimensions. -/
def downscaleRatio (imgWidth imgHeight : ℕ) : ℚ :=
  min ((100 : ℚ) / (imgWidth : ℚ)) ((100 : ℚ) / (imgHeight : ℚ))

/-- The source's `width` local after the cap: scaled by the ratio when
either original dimension exceeds 100, otherwise unchanged.  This value
stays an un-truncated (possibly fractional) number in the source. -/
def downscaledWidth (imgWidth imgHeight : ℕ) : ℚ :=
  if 100 < imgWidth ∨ 100 < imgHeight then
    (imgWidth : ℚ) * downscaleRatio imgWidth imgHeight
  else (imgWidth : ℚ)

/-- The source's `height` local after the cap, un-truncated. -/
def downscaledHeight (imgWidth imgHeight : ℕ) : ℚ :=
  if 100 < imgWidth ∨ 100 < imgHeight then
    (imgHeight : ℚ) * downscaleRatio imgWidth imgHeight
  else (imgHeight : ℚ)

/-- The source's `totalPixels = width * height`: the product of the two
un-truncated downscaled dimensions — not, in general, the pixel count of
the iterated raster. -/
def totalPixels (imgWidth imgHeight : ℕ) : ℚ :=
  downscaledWidth imgWidth imgHeight * downscaledHeight imgWidth imgHeight

/-- Width of the raster actually delivered by `getImageData`: its arguments
are converted to integers, truncating the possibly fractional downscaled
width (for positive values, truncation is the floor, and the floor of
`width * (100 / max)` is the natural division `100 * width / max`). -/
def rasterWidth (imgWidth imgHeight : ℕ) : ℕ :=
  if 100 < imgWidth ∨ 100 < imgHeight then
    100 * imgWidth / max imgWidth imgHeight
  else imgWidth

/-- Height of the raster actually delivered by `getImageData`. -/
def rasterHeight (imgWidth imgHeight : ℕ) : ℕ :=
  if 100 < imgWidth ∨ 100 < imgHeight then
    100 * imgHeight / max imgWidth imgHeight
  else imgHeight

/-- `analyzeImage` on a decoded image of original dimensions
`imgWidth x imgHeight` whose (possibly downscaled) raster pixel data is
`data`.  The source's `totalPixels = width * height` is the product of the
un-truncated downscaled dimensions: `10000 * imgWidth * imgHeight / m^2`
with `m = max imgWidth imgHeight` when a dimension exceeds the cap, and
`imgWidth * imgHeight` otherwise; `hasTransparency` holds when
`transparentPixelCount > totalPixels * 0.05`, embedded exactly by clearing
the positive denominators (`20 * count * m^2 > 10000 * imgWidth *
imgHeight`, respectively `20 * count > imgWidth * imgHeight`);
`averageLuminance` is `totalLuminance / opaquePixelCount`, or `0` when
there is no opaque pixel (the source guards the division by
`opaquePixelCount > 0`); `isDark` is `averageLuminance < 128`, embedded
exactly as `totalLuminance1000 < 128000 * opaquePixelCount` under the
guard (and `true` in the unguarded case, where `averageLuminance = 0 <
128`); the background suggestion follows the transparency/darkness policy
of the source. -/
def analyzeImage (imgWidth imgHeight : ℕ) (data : List Pixel) : ImageAnalysisResult :=
  let counts := countPixels data
  let totalLuminance1000 := counts.1
  let opaquePixelCount := counts.2.1
  let transparentPixelCount := counts.2.2
  let m := max imgWidth imgHeight
  let hasTransparency : Bool :=
    if 100 < imgWidth ∨ 100 < imgHeight then
      decide (20 * transparentPixelCount * (m * m) > 10000 * (imgWidth * imgHeight))
    else
      decide (20 * transparentPixelCount > imgWidth * imgHeight)
  let averageLuminance : ℚ :=
    if opaquePixelCount > 0 then
      (totalLuminance1000 : ℚ) / (1000 * (opaquePixelCount : ℚ))
    else 0
  let isDark : Bool :=
    if opaquePixelCount > 0 then
      decide (totalLuminance1000 < 128000 * opaquePixelCount)
    else true
  let suggestedBackground : Background :=
    if hasTransparency then
      if isDark then Background.light else Background.dark
    else
      Background.checkerboard
  { hasTransparency := hasTransparency
    isDark := isDark
    suggestedBackground := suggestedBackground
    averageLuminance := averageLuminance }

/-- Transparent-pixel count of a raster, as computed by the loop. -/
def transparentCount (data : List Pixel) : ℕ := (countPixels data).2.2

/-- Opaque-pixel count of a raster, as computed by the loop. -/
def opaqueCount (data : List Pixel) : ℕ := (countPixels data).2.1

/-! ### Directory navigation hook (`useFileSystem`) -/

/-- A `FileSystemDirectoryHandle`: an opaque capability with a `name`.
The `id` distinguishes handles beyond their name (two distinct directories
may share a name; the source compares handles by name only where it does so
explicitly). -/
structure DirHandle where
  id : ℕ
  name : String
deriving DecidableEq, Repr

/-- A `FileSystemFile` as produced by the hook's listing: only files whose
extension is in the image set are kept, and their `type` is always the
literal `'image'`, so the record reduces to the name.  (The file handle and
object URL play no role in the verified claims.) -/
structure FileSystemFile where
  name : String
deriving DecidableEq, Repr

/-- A `FileSystemFolder`: a name together with the directory handle. -/
structure FileSystemFolder where
  name : String
  handle : DirHandle
deriving DecidableEq, Repr

/-- One raw entry returned by `handle.values()`: a file (with its name) or a
subdirectory (with its handle; its `name` is the handle's name). -/
inductive RawEntry
  | file (name : String)
  | dir (handle : DirHandle)
deriving DecidableEq, Repr

/-- The image extension allowlist of the hook. -/
def IMAGE_EXTENSIONS : List String :=
  ["png", "jpg", "jpeg", "webp", "svg", "gif", "avif", "bmp"]

/-- `name.split('.')` on the underlying character sequence: segments between
`'.'` occurrences (a trailing `'.'` yields a final empty segment, exactly as
in JavaScript). -/
def splitOnDot : List Char → List (List Char)
  | [] => [[]]
  | c :: cs =>
    let rest := splitOnDot cs
    if c = '.' then [] :: rest
    else
      match rest with
      | [] => [[c]]
      | seg :: segs => (c :: seg) :: segs

/-- `name.split('.').pop()?.toLowerCase()`: the lower-cased last dot-separated
segment of the file name (for a name without a dot, the whole name). -/
def extOf (name : String) : String :=
  String.mk (((splitOnDot name.data).getLastD []).map Char.toLower)

/-- The hook's file filter: keep a file entry exactly when its extension is
in `IMAGE_EXTENSIONS`. -/
def isImageName (name : String) : Bool :=
  IMAGE_EXTENSIONS.contains (extOf name)

/-- Files collected by the scan loop, in entry order: image files only. -/
def filesOf : List RawEntry → List FileSystemFile
  | [] => []
  | RawEntry.file n :: es =>
    if isImageName n then ⟨n⟩ :: filesOf es else filesOf es
  | RawEntry.dir _ :: es => filesOf es

/-- Folders collected by the scan loop, in entry order: every subdirectory. -/
def foldersOf : List RawEntry → List FileSystemFolder
  | [] => []
  | RawEntry.file _ :: es => foldersOf es
  | RawEntry.dir h :: es => ⟨h.name, h⟩ :: foldersOf es

/-- Lexicographic comparison of names as character sequences.
`Array.prototype.sort` with a `localeCompare` comparator is stable and
total; the exact locale collation (case-insensitive, numeric-aware) is
platform-defined and no verified claim depends on the resulting order, so
the embedding fixes codepoint collation. -/
def charListLeb : List Char → List Char → Bool
  | [], _ => true
  | _ :: _, [] => false
  | c :: cs, d :: ds => if c < d then true else if d < c then false else charListLeb cs ds

/-- Name order used by the listing sorts. -/
def nameLe (a b : String) : Prop := charListLeb a.data b.data = true

instance (a b : String) : Decidable (nameLe a b) :=
  instDecidableEqBool (charListLeb a.data b.data) true

/-- The hook's stable sort of files by name. -/
def sortFiles (files : List FileSystemFile) : List FileSystemFile :=
  List.insertionSort (fun a b => nameLe a.name b.name) files

/-- The hook's stable sort of folders by name. -/
def sortFolders (folders : List FileSystemFolder) : List FileSystemFolder :=
  List.insertionSort (fun a b => nameLe a.name b.name) folders

/-- The state owned by `useFileSystem`.  (The transient `isLoading` flag is
set and cleared within every transition and is omitted: each embedded
transition maps the pre-state to the settled post-state.) -/
structure FSState where
  currentDirectoryHandle : Option DirHandle
  directoryStack : List DirHandle
  files : List FileSystemFile
  folders : List FileSystemFolder
  error : Option String
deriving DecidableEq, Repr

/-- The directory-lister collaborator together with its permission protocol:
for a handle, either an error message (permission not granted after the
interactive request, or an enumeration failure — both reach the hook's
`catch` block) or the raw single-level entries. -/
def Env : Type := DirHandle → Except String (List RawEntry)

/-- `loadFilesFromDirectory`: verify permission and scan one level.  On
success the sorted listing replaces `files`/`folders`, the handle becomes
current and the error is cleared; on failure only `error` is set — `files`,
`folders` and `currentDirectoryHandle` keep their prior values. -/
def loadFilesFromDirectory (env : Env) (handle : DirHandle) (s : FSState) : FSState :=
  match env handle with
  | Except.error msg => { s with error := some msg }
  | Except.ok entries =>
    { s with
      files := sortFiles (filesOf entries)
      folders := sortFolders (foldersOf entries)
      currentDirectoryHandle := some handle
      error := none }

/-- `openDirectoryWithHandle` (also the tail of `openDirectory` after the
picker): reset the stack, then load the chosen root. -/
def openDirectoryWithHandle (env : Env) (handle : DirHandle) (s : FSState) : FSState :=
  loadFilesFromDirectory env handle { s with directoryStack := [] }

/-- `navigateToDirectory(folder, resetStack)`: with `resetStack` the stack is
cleared (breadcrumb jump); otherwise the current handle, when present, is
pushed.  The stack update happens before the (fallible) load, exactly as in
the source. -/
def navigateToDirectory (env : Env) (folder : FileSystemFolder) (resetStack : Bool)
    (s : FSState) : FSState :=
  let s1 :=
    if resetStack then { s with directoryStack := [] }
    else
      match s.currentDirectoryHandle with
      | some cur => { s with directoryStack := s.directoryStack ++ [cur] }
      | none => s
  loadFilesFromDirectory env folder.handle s1

/-- `navigateUp`: a no-op on an empty stack; otherwise pop the top of the
stack (before the fallible load, as in the source) and load it. -/
def navigateUp (env : Env) (s : FSState) : FSState :=
  match s.directoryStack.getLast? with
  | none => s
  | some parent =>
    loadFilesFromDirectory env parent { s with directoryStack := s.directoryStack.dropLast }

/-- The hook's derived `path`: stack then current handle (dropping `null`). -/
def fsPath (s : FSState) : List DirHandle :=
  s.directoryStack ++ (match s.currentDirectoryHandle with
    | some cur => [cur]
    | none => [])

/-! ### App-level selection and navigation handlers -/

/-- The app state around the hook: the hook state plus the preview selection.
(`storeFiles` used by `handleNext`/`handlePrev` is the store copy of the
hook's `files`, synced by an effect; the embedding reads `fs.files`.) -/
structure AppState where
  fs : FSState
  selectedFile : Option FileSystemFile
  isPreviewOpen : Bool
deriving DecidableEq, Repr

/-- `findIndex(f => f.name === n)` over the listing, `-1` when absent. -/
def findIdxName (n : String) : List FileSystemFile → Option ℕ
  | [] => none
  | f :: fs => if f.name == n then some 0 else (findIdxName n fs).map (· + 1)

/-- The integer value of the source's `findIndex` (`-1` sentinel). -/
def findIndexName (n : String) (files : List FileSystemFile) : ℤ :=
  match findIdxName n files with
  | some i => (i : ℤ)
  | none => -1

/-- `handleNext`: with a selection, locate it by name in the store files and,
when `idx < files.length - 1` (JavaScript number arithmetic, so `-1` for a
missing name passes the test on a non-empty listing), select the file at
`idx + 1`. -/
def handleNext (s : AppState) : AppState :=
  match s.selectedFile with
  | none => s
  | some sel =>
    let files := s.fs.files
    let idx := findIndexName sel.name files
    if idx < (files.length : ℤ) - 1 then
      { s with selectedFile := files.get? (idx + 1).toNat }
    else s

/-- `handlePrev`: with a selection, locate it by name and, when `idx > 0`,
select the file at `idx - 1`. -/
def handlePrev (s : AppState) : AppState :=
  match s.selectedFile with
  | none => s
  | some sel =>
    let files := s.fs.files
    let idx := findIndexName sel.name files
    if idx > 0 then
      { s with selectedFile := files.get? (idx - 1).toNat }
    else s

/-- `handleFolderClick`: delegate to `navigateToDirectory` without stack
reset; the selection and preview-open flag are not touched. -/
def handleFolderClick (env : Env) (folder : FileSystemFolder) (s : AppState) : AppState :=
  { s with fs := navigateToDirectory env folder false s.fs }

/-- `handleBreadcrumbNavigate`: a guard returns unchanged on the last path
segment; otherwise delegate to `navigateToDirectory` with stack reset.  The
selection and preview-open flag are not touched. -/
def handleBreadcrumbNavigate (env : Env) (handle : DirHandle) (index : ℕ)
    (s : AppState) : AppState :=
  if index = (fsPath s.fs).length - 1 then s
  else { s with fs := navigateToDirectory env ⟨handle.name, handle⟩ true s.fs }

/-- The back button: `navigateUp` on the hook state; the selection and
preview-open flag are not touched. -/
def appNavigateUp (env : Env) (s : AppState) : AppState :=
  { s with fs := navigateUp env s.fs }

/-- Opening a root from picker or history: `openDirectoryWithHandle` on the
hook state; the selection and preview-open flag are not touched. -/
def appOpenRoot (env : Env) (handle : DirHandle) (s : AppState) : AppState :=
  { s with fs := openDirectoryWithHandle env handle s.fs }

/-! ### Favorites store (`useAppStore`) -/

/-- A favorite entry: directory name (also standing for the stored handle,
whose identity is name-based) and timestamp. -/
structure Fav where
  name : String
  addedAt : ℕ
deriving DecidableEq, Repr

/-- Ordering used by the store: `addedAt` descending (newest first). -/
def favLe (a b : Fav) : Prop := b.addedAt ≤ a.addedAt

instance : DecidableRel favLe := fun a b => Nat.decLe b.addedAt a.addedAt

instance : IsTotal Fav favLe := ⟨fun a b => (Nat.le_total b.addedAt a.addedAt)⟩

instance : IsTrans Fav favLe := ⟨fun _ _ _ h1 h2 => Nat.le_trans h2 h1⟩

/-- The store's `sort((a, b) => b.addedAt - a.addedAt)`: a stable descending
sort by timestamp. -/
def sortFavs (favs : List Fav) : List Fav :=
  List.insertionSort favLe favs

/-- `findIndex(d => d.name === name)` over the favorites, as an option. -/
def favIdx (n : String) : List Fav → Option ℕ
  | [] => none
  | d :: ds => if d.name == n then some 0 else (favIdx n ds).map (· + 1)

/-- `newFavorites[i] = { ...newFavorites[i], addedAt: now }`. -/
def setAddedAt : ℕ → ℕ → List Fav → List Fav
  | _, _, [] => []
  | 0, now, d :: ds => { d with addedAt := now } :: ds
  | i + 1, now, d :: ds => d :: setAddedAt i now ds

/-- Pure favorites update of `addFavoriteDirectory`: refresh the timestamp of
the entry with the handle's name when present, append a fresh entry
otherwise, then sort newest-first. -/
def upsertList (now : ℕ) (n : String) (favs : List Fav) : List Fav :=
  let newFavs :=
    match favIdx n favs with
    | some i => setAddedAt i now favs
    | none => favs ++ [⟨n, now⟩]
  sortFavs newFavs

/-- Pure favorites update of `removeFavoriteDirectory`:
`filter(d => d.name !== name)`. -/
def removeList (n : String) (favs : List Fav) : List Fav :=
  favs.filter (fun d => d.name != n)

/-- `addFavoriteDirectory`: the in-memory state is set to the upserted list,
then the persistence write runs inside `try/catch` — a failing write
(`storeOk = false`) is logged and no exception leaves the function.  Result:
committed in-memory list and the exception surfaced to the caller, if any. -/
def addFavoriteDirectory (storeOk : Bool) (now : ℕ) (n : String)
    (favs : List Fav) : List Fav × Option String :=
  let newFavorites := upsertList now n favs
  (newFavorites, none)

/-- `removeFavoriteDirectory`: the in-memory state is set to the filtered
list, then the persistence write runs with no `try/catch` — a failing write
rejects the returned promise, surfacing a `StorageFailure` to the caller. -/
def removeFavoriteDirectory (storeOk : Bool) (n : String)
    (favs : List Fav) : List Fav × Option String :=
  let newFavorites := removeList n favs
  (newFavorites, if storeOk then none else some "StorageFailure")

/-! ### Concrete sample material for the closed instance theorems -/

/-- Sample root directory handle. -/
def hA : DirHandle := ⟨0, "A"⟩

/-- Sample subdirectory handle (child of the root). -/
def hB : DirHandle := ⟨1, "B"⟩

/-- Sample subdirectory handle (child of `hB`). -/
def hC : DirHandle := ⟨2, "C"⟩

/-- Listing of the sample root: one image file and the folder `B`. -/
def listA : List RawEntry := [RawEntry.file "x.png", RawEntry.dir hB]

/-- Listing of `B`: the folder `C`, an image sharing the root's file name,
and a non-image file (dropped by the filter). -/
def listB : List RawEntry :=
  [RawEntry.dir hC, RawEntry.file "x.png", RawEntry.file "notes.txt"]

/-- Listing of `C`: empty. -/
def listC : List RawEntry := []

/-- Sample lister environment: `A`, `B`, `C` list successfully, everything
else fails. -/
def sampleEnv : Env := fun h =>
  if h.id = 0 then Except.ok listA
  else if h.id = 1 then Except.ok listB
  else if h.id = 2 then Except.ok listC
  else Except.error "listing failure"

/-- Environment in which every permission check or listing fails. -/
def failEnv : Env := fun _ => Except.error "listing failure"

/-- Sample hook state sitting in `A` with a non-empty ancestor stack. -/
def sampleFs : FSState := ⟨some hA, [hC], [⟨"x.png"⟩], [], none⟩

/-- A 5x4 raster with exactly one almost-transparent pixel (5% of 20). -/
def samplePixels : List Pixel :=
  List.replicate 1 ⟨0, 0, 0, 0⟩ ++ List.replicate 19 ⟨255, 255, 255, 255⟩

/-- Sample app state: three files listed, the middle one selected. -/
def sampleApp : AppState :=
  ⟨⟨some hA, [], [⟨"a.png"⟩, ⟨"b.png"⟩, ⟨"c.png"⟩], [], none⟩, some ⟨"b.png"⟩, true⟩

/-- Sample app state whose selection names no file of the listing. -/
def staleApp : AppState :=
  ⟨⟨some hA, [], [⟨"a.png"⟩, ⟨"b.png"⟩], [], none⟩, some ⟨"z.png"⟩, true⟩

/-- Sample app state one level deep (breadcrumb path of length two). -/
def breadcrumbApp : AppState := ⟨⟨some hB, [hA], [], [], none⟩, none, false⟩

/-- Sample favorites list with distinct names. -/
def sampleFavs : List Fav := [⟨"downloads", 3⟩, ⟨"pictures", 5⟩]

/-- Sample app state at the root with `x.png` selected and the preview open. -/
def previewApp : AppState :=
  ⟨⟨some hA, [], [⟨"x.png"⟩], [⟨"B", hB⟩], none⟩, some ⟨"x.png"⟩, true⟩

/-! ## Supporting lemmas -/

/-- Projection of `analyzeImage`: the transparency flag is the exact
denominator-cleared integer form of the source's
`transparentPixelCount > totalPixels * 0.05`, in both downscale branches. -/
theorem analyzeImage_hasTransparency (w h : ℕ) (data : List Pixel) :
    (analyzeImage w h data).hasTransparency =
      (if 100 < w ∨ 100 < h then
        decide (20 * transparentCount data * (max w h * max w h) > 10000 * (w * h))
      else
        decide (20 * transparentCount data > w * h)) := rfl

/-- Projection of `analyzeImage`: the background suggestion is the policy
case split on the result's own transparency and darkness flags. -/
theorem analyzeImage_suggestedBackground_eq (w h : ℕ) (data : List Pixel) :
    (analyzeImage w h data).suggestedBackground =
      (if (analyzeImage w h data).hasTransparency then
        (if (analyzeImage w h data).isDark then Background.light else Background.dark)
      else Background.checkerboard) := rfl

/-- Projection of `analyzeImage`: the average luminance is the guarded
quotient (and the exact value of the source's
`totalLuminance / opaquePixelCount`). -/
theorem analyzeImage_averageLuminance_eq (w h : ℕ) (data : List Pixel) :
    (analyzeImage w h data).averageLuminance =
      (if opaqueCount data > 0 then
        ((countPixels data).1 : ℚ) / (1000 * (opaqueCount data : ℚ))
      else 0) := rfl

/-- A raster all of whose pixels are almost fully transparent has no opaque
pixel. -/
theorem opaqueCount_eq_zero (data : List Pixel) (hall : ∀ p ∈ data, p.a < 10) :
    opaqueCount data = 0 := by
  induction data with
  | nil => rfl
  | cons p ps ih =>
    have hp : p.a < 10 := hall p (List.mem_cons_self p ps)
    have hps : ∀ q ∈ ps, q.a < 10 := fun q hq => hall q (List.mem_cons_of_mem p hq)
    simp only [opaqueCount, countPixels, if_pos hp] at *
    exact ih hps

/-- The integer darkness test of the embedding agrees with the source's
`averageLuminance < 128` on the exact rational average. -/
theorem isDark_iff_averageLuminance_lt (w h : ℕ) (data : List Pixel) :
    ((analyzeImage w h data).isDark = true ↔
      (analyzeImage w h data).averageLuminance < 128) := by
  have hid : (analyzeImage w h data).isDark =
      (if opaqueCount data > 0 then
        decide ((countPixels data).1 < 128000 * opaqueCount data)
      else true) := rfl
  rw [hid, analyzeImage_averageLuminance_eq]
  by_cases hop : opaqueCount data > 0
  · rw [if_pos hop, if_pos hop, decide_eq_true_iff]
    have hpos : (0 : ℚ) < 1000 * (opaqueCount data : ℚ) := by
      have : (0 : ℚ) < (opaqueCount data : ℚ) := by exact_mod_cast hop
      linarith
    rw [div_lt_iff₀ hpos]
    rw [show (128 : ℚ) * (1000 * (opaqueCount data : ℚ)) =
      ((128000 * opaqueCount data : ℕ) : ℚ) by push_cast; ring]
    exact ⟨fun hlt => by exact_mod_cast hlt, fun hlt => by exact_mod_cast hlt⟩
  · rw [if_neg hop, if_neg hop]
    norm_num

/-- Unfolding of the transparent count over one pixel. -/
theorem transparentCount_cons (p : Pixel) (l : List Pixel) :
    transparentCount (p :: l) =
      (if p.a < 10 then transparentCount l + 1 else transparentCount l) := by
  simp only [transparentCount, countPixels]
  split <;> rfl

/-- The transparent count adds over concatenation. -/
theorem transparentCount_append (xs ys : List Pixel) :
    transparentCount (xs ++ ys) = transparentCount xs + transparentCount ys := by
  induction xs with
  | nil => simp [transparentCount, countPixels]
  | cons p ps ih =>
    rw [List.cons_append, transparentCount_cons, transparentCount_cons, ih]
    split <;> omega

/-- The transparent count of a constant raster. -/
theorem transparentCount_replicate (k : ℕ) (p : Pixel) :
    transparentCount (List.replicate k p) = if p.a < 10 then k else 0 := by
  induction k with
  | zero => simp [transparentCount, countPixels]
  | succ n ih =>
    rw [List.replicate_succ, transparentCount_cons, ih]
    split <;> omega

/-- For positive dimensions, the smaller of the two axis ratios is the cap
over the larger dimension. -/
theorem downscaleRatio_eq (w h : ℕ) (hw : 0 < w) (hh : 0 < h) :
    downscaleRatio w h = 100 / ((max w h : ℕ) : ℚ) := by
  have hwq : (0 : ℚ) < (w : ℚ) := by exact_mod_cast hw
  have hhq : (0 : ℚ) < (h : ℚ) := by exact_mod_cast hh
  rw [downscaleRatio]
  rcases le_total w h with hle | hle
  · rw [Nat.max_eq_right hle, min_eq_right]
    exact div_le_div_of_nonneg_left (by norm_num) hwq (by exact_mod_cast hle)
  · rw [Nat.max_eq_left hle, min_eq_left]
    exact div_le_div_of_nonneg_left (by norm_num) hhq (by exact_mod_cast hle)

/-- Closed form of the source's `totalPixels`: the un-truncated downscale
leaves `10000 * w * h / m^2` (with `m` the larger dimension) when a
dimension exceeds the cap, and `w * h` otherwise. -/
theorem totalPixels_eq (w h : ℕ) (hw : 0 < w) (hh : 0 < h) :
    totalPixels w h =
      (if 100 < w ∨ 100 < h then
        (10000 * w * h : ℚ) / (((max w h : ℕ) : ℚ) * ((max w h : ℕ) : ℚ))
      else (w * h : ℚ)) := by
  rw [totalPixels, downscaledWidth, downscaledHeight]
  by_cases hg : 100 < w ∨ 100 < h
  · rw [if_pos hg, if_pos hg, if_pos hg, downscaleRatio_eq w h hw hh]
    have hm : (0 : ℚ) < ((max w h : ℕ) : ℚ) := by
      have hmn : 0 < max w h := Nat.lt_of_lt_of_le hw (Nat.le_max_left w h)
      exact_mod_cast hmn
    field_simp
    ring
  · rw [if_neg hg, if_neg hg, if_neg hg]
/-- The embedded raster width is the floor (integer conversion) of the
un-truncated downscaled width, as performed by `getImageData`. -/
theorem rasterWidth_eq_floor (w h : ℕ) (hw : 0 < w) (hh : 0 < h) :
    rasterWidth w h = ⌊downscaledWidth w h⌋₊ := by
  rw [rasterWidth, downscaledWidth]
  by_cases hg : 100 < w ∨ 100 < h
  · rw [if_pos hg, if_pos hg, downscaleRatio_eq w h hw hh]
    rw [show (w : ℚ) * (100 / ((max w h : ℕ) : ℚ)) =
      ((100 * w : ℕ) : ℚ) / ((max w h : ℕ) : ℚ) by push_cast; ring]
    rw [Nat.floor_div_eq_div]
  · rw [if_neg hg, if_neg hg, Nat.floor_natCast]

/-- The embedded raster height is the floor of the un-truncated downscaled
height. -/
theorem rasterHeight_eq_floor (w h : ℕ) (hw : 0 < w) (hh : 0 < h) :
    rasterHeight w h = ⌊downscaledHeight w h⌋₊ := by
  rw [rasterHeight, downscaledHeight]
  by_cases hg : 100 < w ∨ 100 < h
  · rw [if_pos hg, if_pos hg, downscaleRatio_eq w h hw hh]
    rw [show (h : ℚ) * (100 / ((max w h : ℕ) : ℚ)) =
      ((100 * h : ℕ) : ℚ) / ((max w h : ℕ) : ℚ) by push_cast; ring]
    rw [Nat.floor_div_eq_div]
  · rw [if_neg hg, if_neg hg, Nat.floor_natCast]

/-- Strict 5% threshold over an integer total, in denominator-cleared form. -/
theorem gt_five_percent_iff (tc n : ℕ) :
    (20 * tc > n) ↔ ((tc : ℚ) > (n : ℚ) * 0.05) := by
  rw [show (0.05 : ℚ) = 1 / 20 by norm_num, gt_iff_lt, gt_iff_lt, mul_one_div,
    div_lt_iff₀ (by norm_num : (0:ℚ) < 20)]
  rw [show ((tc : ℚ) * 20) = ((tc * 20 : ℕ) : ℚ) by push_cast; ring, Nat.cast_lt]
  omega

/-- Strict 5% threshold over a rational total `10000 * a / m^2`, in
denominator-cleared form. -/
theorem gt_scaled_five_percent_iff (tc a m : ℕ) (hm : 0 < m) :
    (20 * tc * (m * m) > 10000 * a) ↔
      ((tc : ℚ) > (10000 * a : ℚ) / ((m : ℚ) * (m : ℚ)) * 0.05) := by
  have hmq : (0 : ℚ) < (m : ℚ) := by exact_mod_cast hm
  rw [show (0.05 : ℚ) = 1 / 20 by norm_num, gt_iff_lt, gt_iff_lt, mul_one_div,
    div_div, div_lt_iff₀ (by positivity)]
  rw [show ((tc : ℚ) * ((m : ℚ) * (m : ℚ) * 20)) = ((20 * tc * (m * m) : ℕ) : ℚ) by
    push_cast; ring]
  rw [show ((10000 * a : ℚ)) = ((10000 * a : ℕ) : ℚ) by push_cast; ring, Nat.cast_lt]

/-- `findIdxName` misses exactly when no listed file bears the name. -/
theorem findIdxName_eq_none_iff (n : String) (files : List FileSystemFile) :
    findIdxName n files = none ↔ ∀ f ∈ files, f.name ≠ n := by
  induction files with
  | nil => simp [findIdxName]
  | cons f fs ih =>
    by_cases hf : f.name = n
    · simp [findIdxName, hf]
    · rw [findIdxName, if_neg (by simpa using hf)]
      constructor
      · intro hmap g hg
        rcases List.mem_cons.mp hg with rfl | hg'
        · exact hf
        · have : findIdxName n fs = none := by
            cases hfind : findIdxName n fs with
            | none => rfl
            | some j => rw [hfind] at hmap; exact absurd hmap (by simp)
          exact (ih.mp this) g hg'
      · intro hall
        have : findIdxName n fs = none :=
          ih.mpr (fun g hg => hall g (List.mem_cons_of_mem f hg))
        rw [this]
        rfl

/-- On a listing with pairwise-distinct file names, `findIdxName` locates
the file sitting at a given position. -/
theorem findIdxName_eq_some_of_get (n : String) (files : List FileSystemFile) (i : ℕ)
    (hi : i < files.length) (hnodup : (files.map FileSystemFile.name).Nodup)
    (hname : (files.get ⟨i, hi⟩).name = n) :
    findIdxName n files = some i := by
  induction files generalizing i with
  | nil => exact absurd hi (by simp)
  | cons f fs ih =>
    have hnodup' : f.name ∉ List.map FileSystemFile.name fs ∧
        (List.map FileSystemFile.name fs).Nodup := List.nodup_cons.mp hnodup
    obtain ⟨hnotin, hnodup2⟩ := hnodup'
    cases i with
    | zero =>
      simp only [List.get] at hname
      simp [findIdxName, hname]
    | succ j =>
      simp only [List.get] at hname
      have hj : j < fs.length := Nat.lt_of_succ_lt_succ hi
      have hfne : f.name ≠ n := by
        intro hcontra
        apply hnotin
        rw [hcontra, ← hname]
        exact List.mem_map_of_mem FileSystemFile.name (List.get_mem fs j hj)
      rw [findIdxName, if_neg (by simpa using hfne)]
      rw [ih j hj hnodup2 hname]
      rfl

/-- `handleNext` never touches the preview-open flag. -/
theorem handleNext_isPreviewOpen (s : AppState) :
    (handleNext s).isPreviewOpen = s.isPreviewOpen := by
  rw [handleNext]
  cases s.selectedFile with
  | none => rfl
  | some sel => dsimp only; split <;> rfl

/-- `handlePrev` never touches the preview-open flag. -/
theorem handlePrev_isPreviewOpen (s : AppState) :
    (handlePrev s).isPreviewOpen = s.isPreviewOpen := by
  rw [handlePrev]
  cases s.selectedFile with
  | none => rfl
  | some sel => dsimp only; split <;> rfl

/-- `favIdx` misses exactly when no favorite bears the name. -/
theorem favIdx_eq_none_iff (n : String) (favs : List Fav) :
    favIdx n favs = none ↔ ∀ d ∈ favs, d.name ≠ n := by
  induction favs with
  | nil => simp [favIdx]
  | cons d ds ih =>
    by_cases hd : d.name = n
    · simp [favIdx, hd]
    · rw [favIdx, if_neg (by simpa using hd)]
      constructor
      · intro hmap g hg
        rcases List.mem_cons.mp hg with rfl | hg'
        · exact hd
        · have : favIdx n ds = none := by
            cases hfind : favIdx n ds with
            | none => rfl
            | some j => rw [hfind] at hmap; exact absurd hmap (by simp)
          exact (ih.mp this) g hg'
      · intro hall
        have : favIdx n ds = none :=
          ih.mpr (fun g hg => hall g (List.mem_cons_of_mem d hg))
        rw [this]
        rfl

/-- A hit of `favIdx` is in bounds and names the sought favorite. -/
theorem favIdx_eq_some (n : String) (favs : List Fav) (i : ℕ)
    (hfind : favIdx n favs = some i) :
    ∃ hi : i < favs.length, (favs.get ⟨i, hi⟩).name = n := by
  induction favs generalizing i with
  | nil => exact absurd hfind (by simp [favIdx])
  | cons d ds ih =>
    by_cases hd : d.name = n
    · rw [favIdx, if_pos (by simpa using hd)] at hfind
      obtain rfl : (0 : ℕ) = i := Option.some.inj hfind
      exact ⟨by simp, hd⟩
    · rw [favIdx, if_neg (by simpa using hd)] at hfind
      cases hrec : favIdx n ds with
      | none => rw [hrec] at hfind; exact absurd hfind (by simp)
      | some j =>
        rw [hrec] at hfind
        obtain rfl : j + 1 = i := Option.some.inj hfind
        obtain ⟨hj, hjname⟩ := ih j hrec
        exact ⟨Nat.succ_lt_succ hj, hjname⟩

/-- `setAddedAt` replaces exactly the addressed entry. -/
theorem setAddedAt_eq_take_drop (now : ℕ) : ∀ (l : List Fav) (i : ℕ) (hi : i < l.length),
    setAddedAt i now l =
      l.take i ++ ({ l.get ⟨i, hi⟩ with addedAt := now } :: l.drop (i + 1))
  | [], i, hi => absurd hi (by simp)
  | d :: ds, 0, _ => by simp [setAddedAt]
  | d :: ds, i + 1, hi => by
    have hi' : i < ds.length := Nat.lt_of_succ_lt_succ hi
    simp only [setAddedAt, List.take, List.drop, List.get, List.cons_append]
    rw [setAddedAt_eq_take_drop now ds i hi']

/-- Writing the timestamp an entry already carries changes nothing. -/
theorem setAddedAt_self (now : ℕ) (l : List Fav) (i : ℕ) (hi : i < l.length)
    (hval : (l.get ⟨i, hi⟩).addedAt = now) :
    setAddedAt i now l = l := by
  rw [setAddedAt_eq_take_drop now l i hi]
  have hfix : ({ l.get ⟨i, hi⟩ with addedAt := now } : Fav) = l.get ⟨i, hi⟩ := by
    cases hg : l.get ⟨i, hi⟩
    rw [hg] at hval
    simp only at hval
    simp [hval]
  rw [hfix]
  have hdrop : l.get ⟨i, hi⟩ :: l.drop (i + 1) = l.drop i := by
    exact List.getElem_cons_drop l i hi
  rw [hdrop, List.take_append_drop]

/-- The stable favorites sort permutes its input. -/
theorem sortFavs_perm (l : List Fav) : List.Perm (sortFavs l) l :=
  List.perm_insertionSort favLe l

/-- Membership is preserved by the favorites sort. -/
theorem mem_sortFavs {d : Fav} {l : List Fav} : d ∈ sortFavs l ↔ d ∈ l :=
  (sortFavs_perm l).mem_iff

/-- The favorites sort sorts (newest first). -/
theorem sortFavs_sorted (l : List Fav) : List.Sorted favLe (sortFavs l) :=
  List.sorted_insertionSort favLe l

/-- Sorting an already newest-first list changes nothing. -/
theorem sortFavs_of_sorted {l : List Fav} (h : List.Sorted favLe l) : sortFavs l = l :=
  h.insertionSort_eq

/-- On a sorted list in which every entry named `n` already carries the
timestamp `now` (and some entry does bear the name), the upsert is the
identity. -/
theorem upsert_of_covered (now : ℕ) (n : String) (l : List Fav)
    (hs : List.Sorted favLe l)
    (hex : ∃ d ∈ l, d.name = n)
    (hall : ∀ d ∈ l, d.name = n → d.addedAt = now) :
    upsertList now n l = l := by
  cases hfind : favIdx n l with
  | none =>
    obtain ⟨d, hd, hdn⟩ := hex
    exact absurd hdn (((favIdx_eq_none_iff n l).mp hfind) d hd)
  | some i =>
    obtain ⟨hi, hin⟩ := favIdx_eq_some n l i hfind
    have hval : (l.get ⟨i, hi⟩).addedAt = now :=
      hall (l.get ⟨i, hi⟩) (List.get_mem l i hi) hin
    rw [upsertList, hfind]
    dsimp only
    rw [setAddedAt_self now l i hi hval]
    exact sortFavs_of_sorted hs

/-- After an upsert on a duplicate-free favorites list, some entry bears the
upserted name and every entry bearing it carries the fresh timestamp. -/
theorem upsert_covered (now : ℕ) (n : String) (favs : List Fav)
    (hnodup : (favs.map Fav.name).Nodup) :
    (∃ d ∈ upsertList now n favs, d.name = n) ∧
    (∀ d ∈ upsertList now n favs, d.name = n → d.addedAt = now) := by
  cases hfind : favIdx n favs with
  | none =>
    rw [upsertList, hfind]
    dsimp only
    constructor
    · exact ⟨⟨n, now⟩, mem_sortFavs.mpr (by simp), rfl⟩
    · intro d hd hdn
      rcases List.mem_append.mp (mem_sortFavs.mp hd) with hdl | hdr
      · exact absurd hdn (((favIdx_eq_none_iff n favs).mp hfind) d hdl)
      · obtain rfl : d = ⟨n, now⟩ := by simpa using hdr
        rfl
  | some i =>
    obtain ⟨hi, hin⟩ := favIdx_eq_some n favs i hfind
    rw [upsertList, hfind]
    dsimp only
    rw [setAddedAt_eq_take_drop now favs i hi]
    have hdrop : favs.get ⟨i, hi⟩ :: favs.drop (i + 1) = favs.drop i := by
      exact List.getElem_cons_drop favs i hi
    have hname_split : List.map Fav.name favs =
        List.map Fav.name (favs.take i) ++ n :: List.map Fav.name (favs.drop (i + 1)) := by
      conv_lhs => rw [← List.take_append_drop i favs, ← hdrop]
      rw [List.map_append, List.map_cons, hin]
    rw [hname_split] at hnodup
    have hnotin_take : n ∉ List.map Fav.name (favs.take i) := by
      intro hmem
      have hdisj := (List.nodup_append.mp hnodup).2.2
      exact hdisj hmem (List.mem_cons_self n _)
    have hnotin_drop : n ∉ List.map Fav.name (favs.drop (i + 1)) := by
      have hnr := (List.nodup_append.mp hnodup).2.1
      exact (List.nodup_cons.mp hnr).1
    constructor
    · refine ⟨{ favs.get ⟨i, hi⟩ with addedAt := now }, mem_sortFavs.mpr ?_, hin⟩
      exact List.mem_append.mpr (Or.inr (List.mem_cons_self _ _))
    · intro d hd hdn
      rcases List.mem_append.mp (mem_sortFavs.mp hd) with hdl | hdr
      · exact absurd (hdn ▸ List.mem_map_of_mem Fav.name hdl) hnotin_take
      · rcases List.mem_cons.mp hdr with rfl | hdr'
        · rfl
        · exact absurd (hdn ▸ List.mem_map_of_mem Fav.name hdr') hnotin_drop

/-- Upsert is idempotent on duplicate-free favorites lists. -/
theorem upsertList_idem (now : ℕ) (n : String) (favs : List Fav)
    (hnodup : (favs.map Fav.name).Nodup) :
    upsertList now n (upsertList now n favs) = upsertList now n favs := by
  obtain ⟨hex, hall⟩ := upsert_covered now n favs hnodup
  exact upsert_of_covered now n (upsertList now n favs)
    (by rw [upsertList]; exact sortFavs_sorted _) hex hall

/-- Removal by name is idempotent. -/
theorem removeList_idem (n : String) (favs : List Fav) :
    removeList n (removeList n favs) = removeList n favs := by
  rw [removeList, removeList, List.filter_filter]
  congr 1
  funext d
  cases hdn : (d.name != n) <;> simp [hdn]

/-! ## Claim theorems -/

/-- C1 (counterexample): the claim that a failed transition retains the
entire prior engine state is false — a failed `enter` (listing failure on
the target) leaves the current handle and listing untouched but has already
pushed the old current handle onto the ancestor stack. -/
theorem enter_failure_mutates_stack_cex :
    (navigateToDirectory failEnv ⟨"B", hB⟩ false sampleFs).error = some "listing failure" ∧
    (navigateToDirectory failEnv ⟨"B", hB⟩ false sampleFs).currentDirectoryHandle =
      sampleFs.currentDirectoryHandle ∧
    (navigateToDirectory failEnv ⟨"B", hB⟩ false sampleFs).files = sampleFs.files ∧
    (navigateToDirectory failEnv ⟨"B", hB⟩ false sampleFs).directoryStack ≠
      sampleFs.directoryStack :=
  ⟨rfl, rfl, rfl, by decide⟩

/-- C1 (amended): when the permission check or listing of the target fails,
every navigation transition (`openRoot` via `openDirectoryWithHandle`,
`enter` and `jump` via `navigateToDirectory`, `up` via `navigateUp`)
retains the prior current handle, files and folders unchanged and surfaces
the error — but the ancestor stack has already been updated before the
listing attempt (cleared, pushed, or popped respectively). -/
theorem nav_failure_preserves_handle_and_listing (env : Env) (s : FSState) :
    (∀ h msg, env h = Except.error msg →
      (loadFilesFromDirectory env h s).currentDirectoryHandle = s.currentDirectoryHandle ∧
      (loadFilesFromDirectory env h s).files = s.files ∧
      (loadFilesFromDirectory env h s).folders = s.folders ∧
      (loadFilesFromDirectory env h s).error = some msg) ∧
    (∀ folder resetStack msg, env folder.handle = Except.error msg →
      (navigateToDirectory env folder resetStack s).currentDirectoryHandle = s.currentDirectoryHandle ∧
      (navigateToDirectory env folder resetStack s).files = s.files ∧
      (navigateToDirectory env folder resetStack s).folders = s.folders ∧
      (navigateToDirectory env folder resetStack s).error = some msg) ∧
    (∀ h msg, env h = Except.error msg →
      (openDirectoryWithHandle env h s).currentDirectoryHandle = s.currentDirectoryHandle ∧
      (openDirectoryWithHandle env h s).files = s.files ∧
      (openDirectoryWithHandle env h s).folders = s.folders ∧
      (openDirectoryWithHandle env h s).error = some msg) ∧
    (∀ parent msg, s.directoryStack.getLast? = some parent → env parent = Except.error msg →
      (navigateUp env s).currentDirectoryHandle = s.currentDirectoryHandle ∧
      (navigateUp env s).files = s.files ∧
      (navigateUp env s).folders = s.folders ∧
      (navigateUp env s).error = some msg) := by
  refine ⟨?_, ?_, ?_, ?_⟩
  · intro h msg hmsg
    simp [loadFilesFromDirectory, hmsg]
  · intro folder resetStack msg hmsg
    cases resetStack <;> cases hc : s.currentDirectoryHandle <;>
      simp [navigateToDirectory, loadFilesFromDirectory, hmsg, hc]
  · intro h msg hmsg
    simp [openDirectoryWithHandle, loadFilesFromDirectory, hmsg]
  · intro parent msg hlast hmsg
    simp [navigateUp, hlast, loadFilesFromDirectory, hmsg]

/-- C1 (amended, closed instance): a failed load at `hB` from `sampleFs`
preserves handle, files and folders and surfaces the message. -/
theorem nav_failure_preserves_handle_and_listing_witness :
    (loadFilesFromDirectory failEnv hB sampleFs).currentDirectoryHandle =
      sampleFs.currentDirectoryHandle ∧
    (loadFilesFromDirectory failEnv hB sampleFs).files = sampleFs.files ∧
    (loadFilesFromDirectory failEnv hB sampleFs).folders = sampleFs.folders ∧
    (loadFilesFromDirectory failEnv hB sampleFs).error = some "listing failure" :=
  (nav_failure_preserves_handle_and_listing failEnv sampleFs).1 hB "listing failure" rfl

/-- C2 (counterexample): the claim that every successful navigation clears
the selection and closes the preview is false — after a successful folder
click into `B`, whose listing contains a file of the same name as the
selected one, the selection and the open preview survive unchanged. -/
theorem selection_survives_navigation_cex :
    (handleFolderClick sampleEnv ⟨"B", hB⟩ previewApp).fs.error = none ∧
    (handleFolderClick sampleEnv ⟨"B", hB⟩ previewApp).fs.currentDirectoryHandle = some hB ∧
    (⟨"x.png"⟩ : FileSystemFile) ∈ (handleFolderClick sampleEnv ⟨"B", hB⟩ previewApp).fs.files ∧
    (handleFolderClick sampleEnv ⟨"B", hB⟩ previewApp).selectedFile ≠ none ∧
    (handleFolderClick sampleEnv ⟨"B", hB⟩ previewApp).isPreviewOpen = true :=
  ⟨rfl, rfl, by decide, by decide, rfl⟩

/-- C2 (amended): no navigation transition of the app layer (folder click,
breadcrumb click, back button, root open) touches the active selection or
the preview-open flag — a stale selection survives every listing change and
is reconciled only lazily, by name, inside `handleNext`/`handlePrev`. -/
theorem navigation_preserves_selection (env : Env) (s : AppState) :
    (∀ folder, (handleFolderClick env folder s).selectedFile = s.selectedFile ∧
      (handleFolderClick env folder s).isPreviewOpen = s.isPreviewOpen) ∧
    (∀ handle index, (handleBreadcrumbNavigate env handle index s).selectedFile = s.selectedFile ∧
      (handleBreadcrumbNavigate env handle index s).isPreviewOpen = s.isPreviewOpen) ∧
    ((appNavigateUp env s).selectedFile = s.selectedFile ∧
      (appNavigateUp env s).isPreviewOpen = s.isPreviewOpen) ∧
    (∀ handle, (appOpenRoot env handle s).selectedFile = s.selectedFile ∧
      (appOpenRoot env handle s).isPreviewOpen = s.isPreviewOpen) := by
  refine ⟨fun folder => ⟨rfl, rfl⟩, fun handle index => ?_, ⟨rfl, rfl⟩, fun handle => ⟨rfl, rfl⟩⟩
  rw [handleBreadcrumbNavigate]
  split <;> exact ⟨rfl, rfl⟩

/-- C3 (counterexample): the claim that both favorites operations tolerate a
storage-backend write failure is false — `removeFavoriteDirectory` runs the
persistence write outside any `try/catch`, so the failure propagates to the
caller (while the in-memory update has already been committed). -/
theorem remove_propagates_storage_failure_cex :
    (removeFavoriteDirectory false "pictures" sampleFavs).2 = some "StorageFailure" ∧
    (removeFavoriteDirectory false "pictures" sampleFavs).1 =
      removeList "pictures" sampleFavs :=
  ⟨rfl, rfl⟩

/-- C3 (amended): on favorites lists with pairwise-distinct names, `upsert`
and `remove` are idempotent on the committed set; `addFavoriteDirectory`
never propagates a storage failure and commits the in-memory update
regardless of it; `removeFavoriteDirectory` also commits the in-memory
update regardless of the write's outcome, but (unlike upsert) lets a failed
write propagate to the caller. -/
theorem favorites_idempotent_and_upsert_tolerant (now : ℕ) (n : String) (favs : List Fav)
    (hnodup : (favs.map Fav.name).Nodup) :
    upsertList now n (upsertList now n favs) = upsertList now n favs ∧
    removeList n (removeList n favs) = removeList n favs ∧
    (∀ storeOk, (addFavoriteDirectory storeOk now n favs).2 = none) ∧
    (∀ storeOk, (addFavoriteDirectory storeOk now n favs).1 = upsertList now n favs) ∧
    (∀ storeOk, (removeFavoriteDirectory storeOk n favs).1 = removeList n favs) :=
  ⟨upsertList_idem now n favs hnodup, removeList_idem n favs,
    fun _ => rfl, fun _ => rfl, fun _ => rfl⟩

/-- C3 (amended, closed instance): the favorites contract instantiated on
`sampleFavs`. -/
theorem favorites_idempotent_and_upsert_tolerant_witness :
    upsertList 7 "downloads" (upsertList 7 "downloads" sampleFavs) =
      upsertList 7 "downloads" sampleFavs ∧
    removeList "downloads" (removeList "downloads" sampleFavs) =
      removeList "downloads" sampleFavs ∧
    (∀ storeOk, (addFavoriteDirectory storeOk 7 "downloads" sampleFavs).2 = none) ∧
    (∀ storeOk, (addFavoriteDirectory storeOk 7 "downloads" sampleFavs).1 =
      upsertList 7 "downloads" sampleFavs) ∧
    (∀ storeOk, (removeFavoriteDirectory storeOk "downloads" sampleFavs).1 =
      removeList "downloads" sampleFavs) :=
  favorites_idempotent_and_upsert_tolerant 7 "downloads" sampleFavs (by decide)

/-- C4 (counterexample): the claim that `hasTransparency` holds exactly
when the transparent count strictly exceeds 5% of the raster's pixel count
is false on downscaled images with fractional dimensions: a 1920 x 1080
image downscales to the un-truncated dimensions 100 x 56.25, `getImageData`
delivers a 100 x 56 = 5600-pixel raster, and with 281 transparent pixels
the count strictly exceeds 5% of the raster (280) yet the source compares
against `totalPixels * 0.05 = 281.25` and reports no transparency. -/
theorem five_percent_of_raster_cex :
    (List.replicate 281 (Pixel.mk 0 0 0 0) ++
      List.replicate 5319 (Pixel.mk 255 255 255 255)).length =
      rasterWidth 1920 1080 * rasterHeight 1920 1080 ∧
    (transparentCount (List.replicate 281 (Pixel.mk 0 0 0 0) ++
      List.replicate 5319 (Pixel.mk 255 255 255 255)) : ℚ) >
      ((List.replicate 281 (Pixel.mk 0 0 0 0) ++
        List.replicate 5319 (Pixel.mk 255 255 255 255)).length : ℚ) * 0.05 ∧
    (analyzeImage 1920 1080 (List.replicate 281 (Pixel.mk 0 0 0 0) ++
      List.replicate 5319 (Pixel.mk 255 255 255 255))).hasTransparency = false := by
  have htc : transparentCount (List.replicate 281 (Pixel.mk 0 0 0 0) ++
      List.replicate 5319 (Pixel.mk 255 255 255 255)) = 281 := by
    rw [transparentCount_append, transparentCount_replicate, transparentCount_replicate]
    norm_num
  have hlen : (List.replicate 281 (Pixel.mk 0 0 0 0) ++
      List.replicate 5319 (Pixel.mk 255 255 255 255)).length = 5600 := by
    rw [List.length_append, List.length_replicate, List.length_replicate]
  refine ⟨?_, ?_, ?_⟩
  · rw [hlen]
    decide
  · rw [htc, hlen]
    norm_num
  · rw [analyzeImage_hasTransparency, if_pos (by norm_num), htc]
    decide

/-- C4 (amended): `hasTransparency` holds exactly when the transparent
count strictly exceeds `totalPixels * 0.05`, where `totalPixels` is the
product of the un-truncated downscaled dimensions — not, in general, the
raster's pixel count; the boundary case (a count exactly equal to the
threshold) yields `false`; and for images within the 100-pixel cap (no
downscale), where `totalPixels` coincides with the raster pixel count, the
original strict-5%-of-raster reading does hold. -/
theorem hasTransparency_iff_strict_five_percent_of_total (w h : ℕ) (data : List Pixel)
    (hw : 0 < w) (hh : 0 < h) :
    ((analyzeImage w h data).hasTransparency = true ↔
      (transparentCount data : ℚ) > totalPixels w h * 0.05) ∧
    ((transparentCount data : ℚ) = totalPixels w h * 0.05 →
      (analyzeImage w h data).hasTransparency = false) ∧
    (¬(100 < w ∨ 100 < h) → data.length = w * h →
      ((analyzeImage w h data).hasTransparency = true ↔
        (transparentCount data : ℚ) > (data.length : ℚ) * 0.05)) := by
  have key : (analyzeImage w h data).hasTransparency = true ↔
      (transparentCount data : ℚ) > totalPixels w h * 0.05 := by
    rw [analyzeImage_hasTransparency, totalPixels_eq w h hw hh]
    by_cases hg : 100 < w ∨ 100 < h
    · rw [if_pos hg, if_pos hg, decide_eq_true_iff]
      have hm : 0 < max w h := Nat.lt_of_lt_of_le hw (Nat.le_max_left w h)
      rw [show ((10000 * w * h : ℚ)) = (10000 * ((w * h : ℕ) : ℚ)) by push_cast; ring]
      exact gt_scaled_five_percent_iff (transparentCount data) (w * h) (max w h) hm
    · rw [if_neg hg, if_neg hg, decide_eq_true_iff]
      rw [show ((w : ℚ) * (h : ℚ)) = ((w * h : ℕ) : ℚ) by push_cast; ring]
      exact gt_five_percent_iff (transparentCount data) (w * h)
  refine ⟨key, ?_, ?_⟩
  · intro heq
    cases hht : (analyzeImage w h data).hasTransparency with
    | false => rfl
    | true =>
      have hgt := key.mp hht
      rw [heq] at hgt
      exact absurd hgt (lt_irrefl _)
  · intro hng hlen
    rw [analyzeImage_hasTransparency, if_neg hng, decide_eq_true_iff, hlen]
    exact gt_five_percent_iff (transparentCount data) (w * h)

/-- C4 (amended, closed instance): the threshold contract on the
un-downscaled 5 x 4 sample raster. -/
theorem hasTransparency_iff_strict_five_percent_of_total_witness :
    ((analyzeImage 5 4 samplePixels).hasTransparency = true ↔
      (transparentCount samplePixels : ℚ) > totalPixels 5 4 * 0.05) ∧
    ((transparentCount samplePixels : ℚ) = totalPixels 5 4 * 0.05 →
      (analyzeImage 5 4 samplePixels).hasTransparency = false) ∧
    (¬(100 < 5 ∨ 100 < 4) → samplePixels.length = 5 * 4 →
      ((analyzeImage 5 4 samplePixels).hasTransparency = true ↔
        (transparentCount samplePixels : ℚ) > (samplePixels.length : ℚ) * 0.05)) :=
  hasTransparency_iff_strict_five_percent_of_total 5 4 samplePixels (by decide) (by decide)

/-- C5: the background suggestion policy — checkerboard without
transparency, light for dark transparent subjects, dark for light
transparent subjects; the three cases cover the two boolean flags
exhaustively and exclusively. -/
theorem suggestedBackground_policy (w h : ℕ) (data : List Pixel) :
    ((analyzeImage w h data).hasTransparency = false →
      (analyzeImage w h data).suggestedBackground = Background.checkerboard) ∧
    ((analyzeImage w h data).hasTransparency = true →
      (analyzeImage w h data).isDark = true →
      (analyzeImage w h data).suggestedBackground = Background.light) ∧
    ((analyzeImage w h data).hasTransparency = true →
      (analyzeImage w h data).isDark = false →
      (analyzeImage w h data).suggestedBackground = Background.dark) := by
  refine ⟨fun h1 => ?_, fun h1 h2 => ?_, fun h1 h2 => ?_⟩
  · rw [analyzeImage_suggestedBackground_eq, h1]
    rfl
  · rw [analyzeImage_suggestedBackground_eq, h1, h2]
    rfl
  · rw [analyzeImage_suggestedBackground_eq, h1, h2]
    rfl

/-- C5 (closed instance): a single opaque black pixel has no transparency
and is suggested the checkerboard background. -/
theorem suggestedBackground_policy_witness :
    (analyzeImage 1 1 [⟨0, 0, 0, 255⟩]).suggestedBackground = Background.checkerboard :=
  (suggestedBackground_policy 1 1 [⟨0, 0, 0, 255⟩]).1 (by rfl)

/-- C7: a raster all of whose pixels have alpha below 10 has no opaque
pixel, and the classification (a total function — nothing is thrown)
returns average luminance 0 without performing the guarded division. -/
theorem fully_transparent_classifies_without_division (w h : ℕ) (data : List Pixel)
    (hall : ∀ p ∈ data, p.a < 10) :
    opaqueCount data = 0 ∧ (analyzeImage w h data).averageLuminance = 0 := by
  have hz := opaqueCount_eq_zero data hall
  refine ⟨hz, ?_⟩
  rw [analyzeImage_averageLuminance_eq, hz]
  simp

/-- C7 (closed instance): the single-transparent-pixel raster. -/
theorem fully_transparent_classifies_without_division_witness :
    opaqueCount [⟨5, 5, 5, 0⟩] = 0 ∧
    (analyzeImage 1 1 [⟨5, 5, 5, 0⟩]).averageLuminance = 0 :=
  fully_transparent_classifies_without_division 1 1 [⟨5, 5, 5, 0⟩] (by decide)

/-- C6: from any state, opening root `A`, entering `B`, entering `C`, then
going up twice (all listings succeeding against a stable lister) restores
exactly the state reached after opening `A`, whose ancestor stack is empty. -/
theorem openRoot_enter_enter_up_up_roundtrip (env : Env) (A : DirHandle)
    (B C : FileSystemFolder) (la lb lc : List RawEntry) (s0 : FSState)
    (henvA : env A = Except.ok la) (henvB : env B.handle = Except.ok lb)
    (henvC : env C.handle = Except.ok lc) :
    navigateUp env (navigateUp env (navigateToDirectory env C false
        (navigateToDirectory env B false (openDirectoryWithHandle env A s0)))) =
      openDirectoryWithHandle env A s0 ∧
    (openDirectoryWithHandle env A s0).directoryStack = [] := by
  have e1 : openDirectoryWithHandle env A s0 =
      ⟨some A, [], sortFiles (filesOf la), sortFolders (foldersOf la), none⟩ := by
    simp [openDirectoryWithHandle, loadFilesFromDirectory, henvA]
  have e2 : navigateToDirectory env B false (openDirectoryWithHandle env A s0) =
      ⟨some B.handle, [A], sortFiles (filesOf lb), sortFolders (foldersOf lb), none⟩ := by
    rw [e1]
    simp [navigateToDirectory, loadFilesFromDirectory, henvB]
  have e3 : navigateToDirectory env C false (navigateToDirectory env B false
      (openDirectoryWithHandle env A s0)) =
      ⟨some C.handle, [A, B.handle], sortFiles (filesOf lc), sortFolders (foldersOf lc), none⟩ := by
    rw [e2]
    simp [navigateToDirectory, loadFilesFromDirectory, henvC]
  have e4 : navigateUp env (navigateToDirectory env C false (navigateToDirectory env B false
      (openDirectoryWithHandle env A s0))) =
      ⟨some B.handle, [A], sortFiles (filesOf lb), sortFolders (foldersOf lb), none⟩ := by
    rw [e3]
    simp [navigateUp, loadFilesFromDirectory, henvB]
  rw [e4, e1]
  refine ⟨?_, rfl⟩
  simp [navigateUp, loadFilesFromDirectory, henvA]

/-- C6 (closed instance): the round trip on the sample tree `A / B / C`. -/
theorem openRoot_enter_enter_up_up_roundtrip_witness :
    navigateUp sampleEnv (navigateUp sampleEnv (navigateToDirectory sampleEnv ⟨"C", hC⟩ false
        (navigateToDirectory sampleEnv ⟨"B", hB⟩ false
          (openDirectoryWithHandle sampleEnv hA ⟨none, [], [], [], none⟩)))) =
      openDirectoryWithHandle sampleEnv hA ⟨none, [], [], [], none⟩ ∧
    (openDirectoryWithHandle sampleEnv hA ⟨none, [], [], [], none⟩).directoryStack = [] :=
  openRoot_enter_enter_up_up_roundtrip sampleEnv hA ⟨"B", hB⟩ ⟨"C", hC⟩ listA listB listC
    ⟨none, [], [], [], none⟩ rfl rfl rfl

/-- C8: a jump (`navigateToDirectory` with stack reset, as issued by a
breadcrumb click on a non-final segment) always leaves an empty ancestor
stack, whatever the depth of the target and whether or not the listing
succeeds. -/
theorem jump_leaves_empty_stack :
    (∀ (env : Env) (folder : FileSystemFolder) (s : FSState),
      (navigateToDirectory env folder true s).directoryStack = []) ∧
    (∀ (env : Env) (handle : DirHandle) (index : ℕ) (s : AppState),
      index ≠ (fsPath s.fs).length - 1 →
      (handleBreadcrumbNavigate env handle index s).fs.directoryStack = []) := by
  have base : ∀ (env : Env) (folder : FileSystemFolder) (s : FSState),
      (navigateToDirectory env folder true s).directoryStack = [] := by
    intro env folder s
    cases henv : env folder.handle <;>
      simp [navigateToDirectory, loadFilesFromDirectory, henv]
  refine ⟨base, ?_⟩
  intro env handle index s hidx
  rw [handleBreadcrumbNavigate, if_neg hidx]
  exact base env ⟨handle.name, handle⟩ s.fs

/-- C8 (closed instance): clicking the first of two breadcrumb segments
from one level deep empties the stack. -/
theorem jump_leaves_empty_stack_witness :
    (handleBreadcrumbNavigate sampleEnv hA 0 breadcrumbApp).fs.directoryStack = [] :=
  jump_leaves_empty_stack.2 sampleEnv hA 0 breadcrumbApp (by decide)

/-- C9: with the selection sitting at position `i` of a duplicate-free
listing, `handleNext` moves it to `i + 1` and `handlePrev` to `i - 1`;
at the last index `handleNext` is the identity, at index 0 `handlePrev` is
the identity, neither ever wraps, closes the preview, or leaves the
listing's bounds (the moved-to position is a valid lookup). -/
theorem next_prev_move_within_bounds (s : AppState) (sel : FileSystemFile) (i : ℕ)
    (hsel : s.selectedFile = some sel)
    (hi : i < s.fs.files.length)
    (hnodup : (s.fs.files.map FileSystemFile.name).Nodup)
    (hget : (s.fs.files.get ⟨i, hi⟩).name = sel.name) :
    ((handleNext s).isPreviewOpen = s.isPreviewOpen ∧
      (handlePrev s).isPreviewOpen = s.isPreviewOpen) ∧
    (i + 1 < s.fs.files.length → (handleNext s).selectedFile = s.fs.files.get? (i + 1)) ∧
    (i + 1 = s.fs.files.length → handleNext s = s) ∧
    (0 < i → (handlePrev s).selectedFile = s.fs.files.get? (i - 1)) ∧
    (i = 0 → handlePrev s = s) := by
  have hfind : findIdxName sel.name s.fs.files = some i :=
    findIdxName_eq_some_of_get sel.name s.fs.files i hi hnodup hget
  have hidx : findIndexName sel.name s.fs.files = (i : ℤ) := by
    rw [findIndexName, hfind]
  refine ⟨⟨handleNext_isPreviewOpen s, handlePrev_isPreviewOpen s⟩, ?_, ?_, ?_, ?_⟩
  · intro hlt
    rw [handleNext, hsel]
    dsimp only
    rw [hidx, if_pos (by omega)]
    dsimp only
    congr 1
  · intro heq
    rw [handleNext, hsel]
    dsimp only
    rw [hidx, if_neg (by omega)]
  · intro hpos
    rw [handlePrev, hsel]
    dsimp only
    rw [hidx, if_pos (by omega)]
    dsimp only
    congr 1
    omega
  · intro hzero
    rw [handlePrev, hsel]
    dsimp only
    rw [hidx, if_neg (by omega)]

/-- C9 (closed instance): the middle selection of a three-file listing. -/
theorem next_prev_move_within_bounds_witness :
    (((handleNext sampleApp).isPreviewOpen = sampleApp.isPreviewOpen ∧
      (handlePrev sampleApp).isPreviewOpen = sampleApp.isPreviewOpen) ∧
    (1 + 1 < sampleApp.fs.files.length →
      (handleNext sampleApp).selectedFile = sampleApp.fs.files.get? (1 + 1)) ∧
    (1 + 1 = sampleApp.fs.files.length → handleNext sampleApp = sampleApp) ∧
    (0 < 1 → (handlePrev sampleApp).selectedFile = sampleApp.fs.files.get? (1 - 1)) ∧
    (1 = 0 → handlePrev sampleApp = sampleApp)) :=
  next_prev_move_within_bounds sampleApp ⟨"b.png"⟩ 1 rfl (by decide) (by decide) (by decide)

/-- C10: with a selection whose name appears nowhere in the current listing,
`handleNext` selects the listing's first file whenever the listing is
non-empty (the `-1` sentinel passes the `idx < length - 1` test), while
`handlePrev` leaves the state untouched (`-1 > 0` fails). -/
theorem stale_selection_next_first_prev_noop (s : AppState) (sel : FileSystemFile)
    (hsel : s.selectedFile = some sel)
    (habsent : ∀ f ∈ s.fs.files, f.name ≠ sel.name) :
    (s.fs.files ≠ [] → (handleNext s).selectedFile = s.fs.files.get? 0) ∧
    handlePrev s = s := by
  have hfind : findIdxName sel.name s.fs.files = none :=
    (findIdxName_eq_none_iff sel.name s.fs.files).mpr habsent
  have hidx : findIndexName sel.name s.fs.files = -1 := by
    rw [findIndexName, hfind]
  constructor
  · intro hne
    have hlen : 0 < s.fs.files.length := List.length_pos.mpr hne
    rw [handleNext, hsel]
    dsimp only
    rw [hidx, if_pos (by omega)]
    dsimp only
    norm_num
  · rw [handlePrev, hsel]
    dsimp only
    rw [hidx, if_neg (by omega)]

/-- C10 (closed instance): a stale `z.png` selection over a two-file
listing. -/
theorem stale_selection_next_first_prev_noop_witness :
    (staleApp.fs.files ≠ [] → (handleNext staleApp).selectedFile = staleApp.fs.files.get? 0) ∧
    handlePrev staleApp = staleApp :=
  stale_selection_next_first_prev_noop staleApp ⟨"z.png"⟩ rfl (by decide)

end TIV
